import Mathlib

/-!
Verification of the CorporateGovernanceUltimate voting contract
(Solidity source embedded in src/HELLO_FHEVM_TUTORIAL.md) and of the mock
front-end voting handler (src/frontend/src/components/pages/ProposalsPage.tsx).

The contract state is embedded shallowly: Solidity mappings become Lean
functions, the proposal array becomes a `List`, `uint32`/`uint8`/`uint256`
become `Nat` with explicit overflow reverts where Solidity 0.8's checked
arithmetic would revert, and every `require` failure becomes `Except.error`
with the contract's reason string (the whole call aborts, so no partial
state is ever produced).
-/

namespace Gov

/-- Account addresses, abstracted to natural numbers. -/
abbrev Addr := Nat

/-- `struct Shareholder` (tutorial lines 227-231): active flag, uint32 share
count, display name. -/
structure Shareholder where
  active : Bool
  shares : Nat
  name : String
deriving Repr, DecidableEq

/-- `struct Proposal` (tutorial lines 234-243). -/
structure Proposal where
  pType : Nat
  title : String
  proposer : Addr
  deadline : Nat
  active : Bool
  forVotes : Nat
  againstVotes : Nat
  threshold : Nat
deriving Repr, DecidableEq

/-- Placeholder proposal used as the out-of-range default for list reads. -/
def emptyProposal : Proposal :=
  { pType := 0, title := "", proposer := 0, deadline := 0, active := false
    forVotes := 0, againstVotes := 0, threshold := 0 }

/-- Full contract storage: owner and flags, the shareholder and board
mappings, the append-only proposal array, and the
`voted[proposalId][address]` double-vote mapping. -/
structure GovState where
  owner : Addr
  initDone : Bool
  companyName : String
  totalShares : Nat
  boardMembers : Addr → Bool
  shareholders : Addr → Shareholder
  proposals : List Proposal
  voted : Nat → Addr → Bool

/-- Modelled from the spec: the constructor is not shown in src/; per the
glossary a board member is an address authorized to register shareholders
and create proposals, and the deployer (owner) acts as one. The fresh
contract has the owner on the board, no shareholders, no proposals. -/
def GovState.init (owner : Addr) : GovState :=
  { owner := owner
    initDone := false
    companyName := ""
    totalShares := 0
    boardMembers := fun a => a == owner
    shareholders := fun _ => { active := false, shares := 0, name := "" }
    proposals := []
    voted := fun _ _ => false }

/-- `initCompany` (tutorial lines 251-257): `onlyOwner`, one-time setup. -/
def initCompany (s : GovState) (caller : Addr) (name : String)
    (shares : Nat) : Except String GovState :=
  if caller ≠ s.owner then .error "Ownable: caller is not the owner"
  else if s.initDone then .error "Already initialized"
  else .ok { s with companyName := name, totalShares := shares,
                    initDone := true }

/-- `addShareholder` (tutorial lines 265-268): `onlyBoard` (modifier body
not shown in src/; modelled from the spec as board-restricted), overwrites
any prior entry with `Shareholder(true, _shares, _name)`. -/
def addShareholder (s : GovState) (caller addr : Addr) (shares : Nat)
    (name : String) : Except String GovState :=
  if s.boardMembers caller = false then .error "Not a board member"
  else .ok { s with shareholders := fun a =>
    if a = addr then { active := true, shares := shares, name := name }
    else s.shareholders a }

/-- Modelled from the spec: `addBoard(address)` appears in the external
interface list and in src/frontend/src/utils/testProposal.ts but its body
is not in src/; the owner authorizes a new board member. -/
def addBoard (s : GovState) (caller addr : Addr) : Except String GovState :=
  if caller ≠ s.owner then .error "Ownable: caller is not the owner"
  else .ok { s with boardMembers := fun a =>
    if a = addr then true else s.boardMembers a }

/-- The proposal record pushed by `createProposal` (tutorial lines
280-289): threshold `_type == 2 ? 75 : (_type == 1 ? 60 : 50)`, deadline
`block.timestamp + _days * 1 days`, active, zero tallies. -/
def mkProposal (caller : Addr) (ptype : Nat) (title : String)
    (ndays now : Nat) : Proposal :=
  { pType := ptype
    title := title
    proposer := caller
    deadline := now + ndays * 86400
    active := true
    forVotes := 0
    againstVotes := 0
    threshold := if ptype = 2 then 75 else if ptype = 1 then 60 else 50 }

/-- `createProposal` (tutorial lines 276-293): `onlyBoard`; id is
`proposals.length + 1`; the new proposal is appended; the id is returned.
Solidity 0.8 checked `uint256` arithmetic reverts if
`block.timestamp + _days * 1 days` overflows. -/
def createProposal (s : GovState) (caller : Addr) (ptype : Nat)
    (title : String) (ndays now : Nat) : Except String (Nat × GovState) :=
  if s.boardMembers caller = false then .error "Not a board member"
  else if 2 ^ 256 ≤ now + ndays * 86400 then .error "arithmetic overflow"
  else
    .ok (s.proposals.length + 1,
      { s with proposals :=
          s.proposals ++ [mkProposal caller ptype title ndays now] })

/-- The proposal read by `vote`/`finalize`/`getResults` for a (1-indexed)
id: `proposals[_id - 1]`, with a placeholder for out-of-range reads. -/
def propAt (s : GovState) (id : Nat) : Proposal :=
  s.proposals.getD (id - 1) emptyProposal

/-- `voted[_id][msg.sender] = true;` as a mapping update. -/
def markVoted (v : Nat → Addr → Bool) (id : Nat) (caller : Addr) :
    Nat → Addr → Bool :=
  fun i a => if i = id ∧ a = caller then true else v i a

/-- `p.forVotes += shares;` on the proposal record. -/
def addFor (p : Proposal) (sh : Nat) : Proposal :=
  { p with forVotes := p.forVotes + sh }

/-- `p.againstVotes += shares;` on the proposal record. -/
def addAgainst (p : Proposal) (sh : Nat) : Proposal :=
  { p with againstVotes := p.againstVotes + sh }

/-- `vote` (tutorial lines 301-316): `onlySharehol` (modifier body not in
src/; modelled from the spec as shareholder-restricted), id-range check,
double-vote check, `p.active && block.timestamp <= p.deadline`, then marks
`voted` and adds the caller's share count to the tally chosen by `_choice`
(1 = for, 2 = against, anything else touches no tally). The `uint32 +=`
is checked arithmetic, so it reverts past `2^32 - 1`. -/
def vote (s : GovState) (caller : Addr) (id choice now : Nat) :
    Except String GovState :=
  if (s.shareholders caller).active = false then .error "Not a shareholder"
  else if ¬ (0 < id ∧ id ≤ s.proposals.length) then
    .error "Invalid proposal ID"
  else if s.voted id caller = true then
    .error "Already voted on this proposal"
  else if ¬ ((propAt s id).active = true ∧ now ≤ (propAt s id).deadline) then
    .error "Voting period ended"
  else if choice = 1 then
    if 2 ^ 32 ≤ (propAt s id).forVotes + (s.shareholders caller).shares then
      .error "arithmetic overflow"
    else
      .ok { s with voted := markVoted s.voted id caller,
                   proposals := s.proposals.set (id - 1)
                     (addFor (propAt s id) (s.shareholders caller).shares) }
  else if choice = 2 then
    if 2 ^ 32 ≤ (propAt s id).againstVotes + (s.shareholders caller).shares
    then .error "arithmetic overflow"
    else
      .ok { s with voted := markVoted s.voted id caller,
                   proposals := s.proposals.set (id - 1)
                     (addAgainst (propAt s id)
                       (s.shareholders caller).shares) }
  else .ok { s with voted := markVoted s.voted id caller }

/-- Closing a proposal: only its `active` flag changes. -/
def deactivate (p : Proposal) : Proposal := { p with active := false }

/-- Modelled from the spec: `finalize(id)` is in the external interface but
its body is not in src/; it is the terminal step of a proposal, closing it
(the data model says proposals are mutated only by vote accumulation and a
terminal finalize step). -/
def finalize (s : GovState) (id : Nat) : Except String GovState :=
  if ¬ (0 < id ∧ id ≤ s.proposals.length) then .error "Invalid proposal ID"
  else .ok { s with proposals := s.proposals.set (id - 1)
                      (deactivate (propAt s id)) }

/-- Modelled from the spec: `getResults(id) → (uint32, uint32, bool)` is in
the external interface but its body is not in src/; it reads the final
tallies and compares the for-percentage of the votes cast against the
stored threshold (the tutorial's walkthrough reports 50000 for / 30000
against as "62.5% approval", i.e. the percentage is taken over
forVotes + againstVotes). -/
def getResults (s : GovState) (id : Nat) :
    Except String (Nat × Nat × Bool) :=
  if ¬ (0 < id ∧ id ≤ s.proposals.length) then .error "Invalid proposal ID"
  else
    .ok ((propAt s id).forVotes, (propAt s id).againstVotes,
      decide ((propAt s id).threshold ≤
        (propAt s id).forVotes * 100 /
          ((propAt s id).forVotes + (propAt s id).againstVotes)))

/-- One external call to the ledger, with its caller and (where the code
reads `block.timestamp`) the block time. -/
inductive Op where
  | initCompany (caller : Addr) (name : String) (shares : Nat)
  | addBoard (caller addr : Addr)
  | addShareholder (caller addr : Addr) (shares : Nat) (name : String)
  | createProposal (caller : Addr) (ptype : Nat) (title : String)
      (ndays now : Nat)
  | vote (caller : Addr) (id choice now : Nat)
  | finalize (caller : Addr) (id : Nat)

/-- Atomic-call semantics: a reverted call leaves the state unchanged. -/
def settle (s : GovState) : Except String GovState → GovState
  | .ok s2 => s2
  | .error _ => s

/-- Apply one call to the ledger (revert = no state change). -/
def execOp (s : GovState) : Op → GovState
  | .initCompany c n sh => settle s (initCompany s c n sh)
  | .addBoard c a => settle s (addBoard s c a)
  | .addShareholder c a sh n => settle s (addShareholder s c a sh n)
  | .createProposal c ty ti d t =>
      match createProposal s c ty ti d t with
      | .ok (_, s2) => s2
      | .error _ => s
  | .vote c id ch t => settle s (vote s c id ch t)
  | .finalize _ id => settle s (finalize s id)

/-- A ghost vote-log entry: proposal id, voter, and the voter's share count
at the moment the vote was accepted. -/
abbrev LogEntry := Nat × Addr × Nat

/-- Apply one call, extending the ghost log on each successful vote. -/
def execLog (sl : GovState × List LogEntry) (op : Op) :
    GovState × List LogEntry :=
  match op with
  | .vote c id ch t =>
      match vote sl.1 c id ch t with
      | .ok s2 => (s2, sl.2 ++ [(id, c, (sl.1.shareholders c).shares)])
      | .error _ => (sl.1, sl.2)
  | _ => (execOp sl.1 op, sl.2)

/-- Run a call trace from the fresh contract, carrying the ghost log. -/
def runLog (owner : Addr) (ops : List Op) : GovState × List LogEntry :=
  ops.foldl execLog (GovState.init owner, [])

/-- The state reached by a call trace from the fresh contract. -/
def run (owner : Addr) (ops : List Op) : GovState :=
  (runLog owner ops).1

/-- Sum of forVotes and againstVotes of proposal `id` (1-indexed). -/
def tallySum (s : GovState) (id : Nat) : Nat :=
  (propAt s id).forVotes + (propAt s id).againstVotes

/-- Sum of the logged share counts of the voters on proposal `id`. -/
def logShareSum (log : List LogEntry) (id : Nat) : Nat :=
  ((log.filter (fun e => e.1 == id)).map (fun e => e.2.2)).sum

/-! ### The mock front-end voting handler -/

/-- Observable actions of the mock front-end `handleVote`
(src/frontend/src/components/pages/ProposalsPage.tsx, VotingPage
lines 472-501): toast notifications, the simulated transaction delay, and
— never emitted by the mock — an actual `contract.vote` invocation. -/
inductive UiEffect where
  | toastError (msg : String)
  | toastLoading (msg : String)
  | toastSuccess (msg : String)
  | delayMs (ms : Nat)
  | contractVoteCall (proposalId choice : Nat)
deriving Repr, DecidableEq

/-- `handleVote` from the mock front-end: with no wallet or contract it
shows an error toast; otherwise it shows a loading toast, waits 2000 ms,
and shows a success toast. The real `contract.contract.vote(proposalId,
voteChoice)` call is commented out in the source and never happens. -/
def handleVote (walletConnected contractLoaded : Bool)
    (proposalId voteChoice : Nat) : List UiEffect :=
  if ¬ (walletConnected = true ∧ contractLoaded = true) then
    [UiEffect.toastError
      "Please connect your wallet and ensure contract is loaded"]
  else
    [UiEffect.toastLoading "Submitting vote...",
     UiEffect.delayMs 2000,
     UiEffect.toastSuccess "Vote submitted successfully!"]

/-- How the ledger would react to each front-end effect: only an actual
contract vote call mutates it; toasts and delays are pure UI. -/
def applyUiEffect (caller : Addr) (now : Nat) (s : GovState) :
    UiEffect → GovState
  | .contractVoteCall id choice => execOp s (Op.vote caller id choice now)
  | _ => s

/-- Ledger state after all effects of a front-end action. -/
def applyUiEffects (caller : Addr) (now : Nat) (s : GovState)
    (effs : List UiEffect) : GovState :=
  effs.foldl (applyUiEffect caller now) s

/-! ### Helper lemmas -/

theorem getD_set_self {α : Type} (l : List α) (i : Nat) (q d : α)
    (h : i < l.length) : (l.set i q).getD i d = q := by
  simp [List.getD_eq_getElem?_getD, List.getElem?_set_self h]

theorem getD_set_ne {α : Type} (l : List α) (i j : Nat) (q d : α)
    (h : i ≠ j) : (l.set i q).getD j d = l.getD j d := by
  simp [List.getD_eq_getElem?_getD, List.getElem?_set_ne h]

theorem getD_append_left {α : Type} (l l2 : List α) (i : Nat) (d : α)
    (h : i < l.length) : (l ++ l2).getD i d = l.getD i d := by
  simp [List.getD_eq_getElem?_getD, List.getElem?_append_left h]

theorem getD_of_length_le {α : Type} (l : List α) (i : Nat) (d : α)
    (h : l.length ≤ i) : l.getD i d = d := by
  simp [List.getD_eq_getElem?_getD, List.getElem?_eq_none h]

theorem getD_append_len {α : Type} (l : List α) (p d : α) :
    (l ++ [p]).getD l.length d = p := by
  simp [List.getD_eq_getElem?_getD,
    List.getElem?_append_right (le_refl l.length)]

/-- A successful `createProposal` returns the id `length + 1`, appends
exactly the record built by `mkProposal`, and touches no other field. -/
theorem createProposal_ok {s : GovState} {caller : Addr} {ptype : Nat}
    {title : String} {ndays now id : Nat} {s2 : GovState}
    (h : createProposal s caller ptype title ndays now = .ok (id, s2)) :
    id = s.proposals.length + 1 ∧
    s2.proposals =
      s.proposals ++ [mkProposal caller ptype title ndays now] ∧
    s2.owner = s.owner ∧ s2.initDone = s.initDone ∧
    s2.companyName = s.companyName ∧ s2.totalShares = s.totalShares ∧
    s2.boardMembers = s.boardMembers ∧
    s2.shareholders = s.shareholders ∧ s2.voted = s.voted := by
  unfold createProposal at h
  split_ifs at h <;> injection h with h
  injection h with h1 h2
  subst h1; subst h2; simp

/-- A successful `vote` call implies every `require` held: active
shareholder, id in range, no prior vote, proposal active, time within the
deadline. -/
theorem vote_ok_pre {s : GovState} {caller : Addr} {id choice now : Nat}
    {s2 : GovState} (h : vote s caller id choice now = .ok s2) :
    (s.shareholders caller).active = true ∧ 0 < id ∧
      id ≤ s.proposals.length ∧ s.voted id caller = false ∧
      (propAt s id).active = true ∧ now ≤ (propAt s id).deadline := by
  unfold vote at h
  split_ifs at h with h1 h2 h3 h4 <;> simp_all [Bool.not_eq_false]

/-- A successful `vote` records exactly one new `voted` mark. -/
theorem vote_ok_voted {s : GovState} {caller : Addr} {id choice now : Nat}
    {s2 : GovState} (h : vote s caller id choice now = .ok s2) :
    s2.voted = markVoted s.voted id caller := by
  unfold vote at h
  split_ifs at h <;> injection h with h <;> subst h <;> rfl

/-- A successful `vote` touches nothing but `proposals` and `voted`, and
keeps the proposal count. -/
theorem vote_ok_frame {s : GovState} {caller : Addr} {id choice now : Nat}
    {s2 : GovState} (h : vote s caller id choice now = .ok s2) :
    s2.owner = s.owner ∧ s2.initDone = s.initDone ∧
      s2.companyName = s.companyName ∧ s2.totalShares = s.totalShares ∧
      s2.boardMembers = s.boardMembers ∧
      s2.shareholders = s.shareholders ∧
      s2.proposals.length = s.proposals.length := by
  unfold vote at h
  split_ifs at h <;> injection h with h <;> subst h <;> simp

/-- The proposal array after a successful `vote`: the chosen tally of the
voted proposal absorbs the caller's shares (choice 1 or 2), any other
choice value leaves the array untouched. -/
theorem vote_ok_proposals {s : GovState} {caller : Addr}
    {id choice now : Nat} {s2 : GovState}
    (h : vote s caller id choice now = .ok s2) :
    (choice = 1 ∧ s2.proposals = s.proposals.set (id - 1)
        (addFor (propAt s id) (s.shareholders caller).shares)) ∨
    (choice = 2 ∧ s2.proposals = s.proposals.set (id - 1)
        (addAgainst (propAt s id) (s.shareholders caller).shares)) ∨
    (choice ≠ 1 ∧ choice ≠ 2 ∧ s2.proposals = s.proposals) := by
  unfold vote at h
  split_ifs at h with h1 h2 h3 h4 h5 h6 h7 <;>
    injection h with h <;> subst h <;> simp_all

/-- After any successful `vote`, a repeat call by the same caller on the
same proposal hits the `"Already voted on this proposal"` require. -/
theorem second_vote_errors {s : GovState} {caller : Addr}
    {id choice now : Nat} {s2 : GovState}
    (h : vote s caller id choice now = .ok s2) (choice2 now2 : Nat) :
    vote s2 caller id choice2 now2 =
      .error "Already voted on this proposal" := by
  have pre := vote_ok_pre h
  have fr := vote_ok_frame h
  have hv := vote_ok_voted h
  have hsh : (s2.shareholders caller).active = true := by
    rw [fr.2.2.2.2.2.1]; exact pre.1
  have hlen : 0 < id ∧ id ≤ s2.proposals.length := by
    rw [fr.2.2.2.2.2.2]; exact ⟨pre.2.1, pre.2.2.1⟩
  have hvt : s2.voted id caller = true := by
    rw [hv]; simp [markVoted]
  unfold vote
  simp [hsh, hlen, hvt]

/-! ### Concrete states used to exercise the theorems -/

/-- A small populated company: three shareholders (50000, 30000, 20000
shares) and one live budget proposal with deadline 1000. -/
def demoState : GovState :=
  { GovState.init 1 with
    initDone := true
    companyName := "Acme Corporation"
    totalShares := 1000000
    shareholders := fun a =>
      if a = 10 then { active := true, shares := 50000,
                       name := "Alice Johnson" }
      else if a = 20 then { active := true, shares := 30000,
                            name := "Bob Smith" }
      else if a = 30 then { active := true, shares := 20000,
                            name := "Carol Williams" }
      else { active := false, shares := 0, name := "" }
    proposals := [{ pType := 1, title := "Q4 2024 Budget Approval",
                    proposer := 1, deadline := 1000, active := true,
                    forVotes := 0, againstVotes := 0, threshold := 60 }] }

/-- `demoState` after shareholder 10 votes For at time 500. -/
def demoAfterVote : GovState := settle demoState (vote demoState 10 1 1 500)

/-! ### Claim theorems -/

/-- C2: after one successful vote call by an address on a proposal, any
second vote call by the same address on the same proposal aborts with the
reason string `"Already voted on this proposal"`, and (by atomic-call
semantics) the reverted call leaves the contract state unchanged. -/
theorem C2_second_vote_fails {s : GovState} {caller : Addr}
    {id choice now : Nat} {s2 : GovState}
    (h : vote s caller id choice now = .ok s2) :
    ∀ choice2 now2,
      vote s2 caller id choice2 now2 =
        .error "Already voted on this proposal" ∧
      execOp s2 (Op.vote caller id choice2 now2) = s2 := by
  intro choice2 now2
  have he := second_vote_errors h choice2 now2
  exact ⟨he, by simp [execOp, settle, he]⟩

/-- C2 witness: shareholder 10 votes For on proposal 1 of `demoState`
successfully, and the repeat vote reverts. -/
theorem C2_second_vote_fails_witness :
    vote demoAfterVote 10 1 2 600 =
      .error "Already voted on this proposal" ∧
    execOp demoAfterVote (Op.vote 10 1 2 600) = demoAfterVote :=
  @C2_second_vote_fails demoState 10 1 1 500 demoAfterVote rfl 2 600

/-- C3: a vote call made strictly after the proposal's deadline aborts,
whatever the caller, the choice, and the proposal's `active` flag. -/
theorem C3_vote_after_deadline_fails {s : GovState} {caller : Addr}
    {id choice now : Nat} (h1 : 1 ≤ id) (h2 : id ≤ s.proposals.length)
    (h3 : (propAt s id).deadline < now) :
    ∃ msg, vote s caller id choice now = .error msg := by
  unfold vote
  split_ifs with hA hB hC hD hE hF hG <;>
    first
      | exact ⟨_, rfl⟩
      | exact absurd hD.2 (by omega)

/-- C3 witness: voting on proposal 1 of `demoState` (deadline 1000, still
active) at time 1001 reverts. -/
theorem C3_vote_after_deadline_fails_witness :
    (1 ≤ 1 ∧ 1 ≤ demoState.proposals.length ∧
      (propAt demoState 1).deadline < 1001) ∧
    ∃ msg, vote demoState 20 1 1 1001 = .error msg :=
  ⟨by refine ⟨le_refl 1, ?_, ?_⟩ <;> decide,
   @C3_vote_after_deadline_fails demoState 20 1 1 1001
     (le_refl 1) (by decide) (by decide)⟩

/-- State with one proposal whose deadline is exactly the current time 100:
the code's `block.timestamp <= p.deadline` still admits the vote. -/
def stateAtDeadline : GovState :=
  { GovState.init 1 with
    initDone := true
    shareholders := fun a =>
      if a = 2 then { active := true, shares := 100, name := "S" }
      else { active := false, shares := 0, name := "" }
    proposals := [{ pType := 0, title := "edge", proposer := 1,
                    deadline := 100, active := true, forVotes := 0,
                    againstVotes := 0, threshold := 50 }] }

/-- C4 counterexample: it is not true that a successful vote needs the
current time to be strictly below the deadline — in `stateAtDeadline` a
vote at time `now = deadline = 100` succeeds. -/
theorem C4_counterexample :
    ¬ (∀ (s : GovState) (caller : Addr) (id choice now : Nat)
        (s2 : GovState), vote s caller id choice now = Except.ok s2 →
        (propAt s id).active = true ∧ now < (propAt s id).deadline) := by
  intro hcl
  have h := (hcl stateAtDeadline 2 1 0 100 _ rfl).2
  exact absurd h (by decide)

/-- C4 (amended): a vote call succeeds only if the proposal is active and
the current time is less than **or equal to** the deadline
(`block.timestamp <= p.deadline`). -/
theorem C4_amended_vote_window {s : GovState} {caller : Addr}
    {id choice now : Nat} {s2 : GovState}
    (h : vote s caller id choice now = .ok s2) :
    (propAt s id).active = true ∧ now ≤ (propAt s id).deadline :=
  ⟨(vote_ok_pre h).2.2.2.2.1, (vote_ok_pre h).2.2.2.2.2⟩

/-- C4 witness: the vote of `demoAfterVote` was cast at time 500 on the
active proposal 1 with deadline 1000. -/
theorem C4_amended_vote_window_witness :
    (propAt demoState 1).active = true ∧
      500 ≤ (propAt demoState 1).deadline :=
  @C4_amended_vote_window demoState 10 1 1 500 demoAfterVote rfl

/-- C5: a successful vote adds exactly the caller's current share count to
the tally selected by the choice — For (1) grows `forVotes` only,
Against (2) grows `againstVotes` only, Abstain (0) grows neither. -/
theorem C5_vote_adds_share_weight {s : GovState} {caller : Addr}
    {id choice now : Nat} {s2 : GovState}
    (h : vote s caller id choice now = .ok s2) :
    (choice = 1 →
      (propAt s2 id).forVotes =
        (propAt s id).forVotes + (s.shareholders caller).shares ∧
      (propAt s2 id).againstVotes = (propAt s id).againstVotes) ∧
    (choice = 2 →
      (propAt s2 id).againstVotes =
        (propAt s id).againstVotes + (s.shareholders caller).shares ∧
      (propAt s2 id).forVotes = (propAt s id).forVotes) ∧
    (choice = 0 →
      (propAt s2 id).forVotes = (propAt s id).forVotes ∧
      (propAt s2 id).againstVotes = (propAt s id).againstVotes) := by
  have pre := vote_ok_pre h
  have hidx : id - 1 < s.proposals.length := by omega
  rcases vote_ok_proposals h with ⟨hc, hps⟩ | ⟨hc, hps⟩ | ⟨hc1, hc2, hps⟩
  · subst hc
    have hAt : propAt s2 id =
        addFor (propAt s id) (s.shareholders caller).shares := by
      unfold propAt; rw [hps]; exact getD_set_self _ _ _ _ hidx
    exact ⟨fun _ => by rw [hAt]; simp [addFor],
           fun hx => by omega, fun hx => by omega⟩
  · subst hc
    have hAt : propAt s2 id =
        addAgainst (propAt s id) (s.shareholders caller).shares := by
      unfold propAt; rw [hps]; exact getD_set_self _ _ _ _ hidx
    exact ⟨fun hx => by omega,
           fun _ => by rw [hAt]; simp [addAgainst], fun hx => by omega⟩
  · have hAt : propAt s2 id = propAt s id := by unfold propAt; rw [hps]
    exact ⟨fun hx => absurd hx hc1, fun hx => absurd hx hc2,
           fun _ => by rw [hAt]; exact ⟨rfl, rfl⟩⟩

/-- C5 witness: shareholder 10 (50000 shares) voting For on proposal 1 of
`demoState` takes `forVotes` from 0 to 50000 and leaves `againstVotes`
at 0. -/
theorem C5_vote_adds_share_weight_witness :
    (1 = 1 →
      (propAt demoAfterVote 1).forVotes =
        (propAt demoState 1).forVotes +
          (demoState.shareholders 10).shares ∧
      (propAt demoAfterVote 1).againstVotes =
        (propAt demoState 1).againstVotes) ∧
    (1 = 2 →
      (propAt demoAfterVote 1).againstVotes =
        (propAt demoState 1).againstVotes +
          (demoState.shareholders 10).shares ∧
      (propAt demoAfterVote 1).forVotes = (propAt demoState 1).forVotes) ∧
    (1 = 0 →
      (propAt demoAfterVote 1).forVotes = (propAt demoState 1).forVotes ∧
      (propAt demoAfterVote 1).againstVotes =
        (propAt demoState 1).againstVotes) :=
  @C5_vote_adds_share_weight demoState 10 1 1 500 demoAfterVote rfl

/-- C9: any choice value other than 1 and 2 (not only 0) is accepted once
the shareholder, id-range, double-vote and deadline checks pass: the call
succeeds, both tallies stay as they were, yet the caller is marked as
having voted, so a later vote by them on this proposal reverts. -/
theorem C9_unknown_choice_acts_as_abstain {s : GovState} {caller : Addr}
    {id choice now : Nat}
    (hsh : (s.shareholders caller).active = true)
    (hid : 0 < id ∧ id ≤ s.proposals.length)
    (hnv : s.voted id caller = false)
    (hwin : (propAt s id).active = true ∧ now ≤ (propAt s id).deadline)
    (hc1 : choice ≠ 1) (hc2 : choice ≠ 2) :
    vote s caller id choice now =
      .ok { s with voted := markVoted s.voted id caller } ∧
    propAt { s with voted := markVoted s.voted id caller } id =
      propAt s id ∧
    ({ s with voted := markVoted s.voted id caller } : GovState).voted
      id caller = true ∧
    ∀ choice2 now2,
      vote { s with voted := markVoted s.voted id caller } caller id
        choice2 now2 = .error "Already voted on this proposal" := by
  have hok : vote s caller id choice now =
      .ok { s with voted := markVoted s.voted id caller } := by
    unfold vote
    simp [hsh, hid, hnv, hwin, hc1, hc2]
  exact ⟨hok, rfl, by simp [markVoted], second_vote_errors hok⟩

/-- No ledger call changes the stored threshold of an existing proposal:
`vote` only adds to a tally, `finalize` only clears `active`,
`createProposal` only appends, and the remaining calls never touch the
proposal array. -/
theorem threshold_preserved (s : GovState) (op : Op) (id : Nat)
    (h1 : 0 < id) (h2 : id ≤ s.proposals.length) :
    (propAt (execOp s op) id).threshold = (propAt s id).threshold := by
  cases op with
  | initCompany c n sh =>
      simp only [execOp]
      unfold initCompany
      split_ifs <;> simp [settle, propAt]
  | addBoard c a =>
      simp only [execOp]
      unfold addBoard
      split_ifs <;> simp [settle, propAt]
  | addShareholder c a sh n =>
      simp only [execOp]
      unfold addShareholder
      split_ifs <;> simp [settle, propAt]
  | createProposal c ty ti d t =>
      simp only [execOp]
      cases hc : createProposal s c ty ti d t with
      | error e => rfl
      | ok r =>
          obtain ⟨rid, rs⟩ := r
          obtain ⟨-, hps, -⟩ := createProposal_ok hc
          unfold propAt
          rw [hps, getD_append_left _ _ _ _ (by omega)]
  | vote c id2 ch t =>
      simp only [execOp]
      cases hv : vote s c id2 ch t with
      | error e => simp [settle]
      | ok s2 =>
          simp only [settle]
          have pre := vote_ok_pre hv
          rcases vote_ok_proposals hv with
            ⟨-, hps⟩ | ⟨-, hps⟩ | ⟨-, -, hps⟩ <;>
            unfold propAt <;> rw [hps]
          · by_cases hEq : id - 1 = id2 - 1
            · rw [hEq, getD_set_self _ _ _ _ (by omega)]
              simp [addFor, propAt, hEq]
            · rw [getD_set_ne _ _ _ _ _ (Ne.symm hEq)]
          · by_cases hEq : id - 1 = id2 - 1
            · rw [hEq, getD_set_self _ _ _ _ (by omega)]
              simp [addAgainst, propAt, hEq]
            · rw [getD_set_ne _ _ _ _ _ (Ne.symm hEq)]
  | finalize c id2 =>
      simp only [execOp]
      unfold finalize
      split_ifs with hI
      · simp only [settle]
        unfold propAt
        by_cases hEq : id - 1 = id2 - 1
        · rw [hEq, getD_set_self _ _ _ _ (by omega)]
          simp [deactivate, propAt, hEq]
        · rw [getD_set_ne _ _ _ _ _ (Ne.symm hEq)]
      · rfl

/-- C1: the threshold stored by `createProposal` is a pure function of the
proposal type — 75 for type 2, 60 for type 1, 50 otherwise — and no later
ledger call ever changes the threshold of an existing proposal. -/
theorem C1_threshold_determined_by_type :
    (∀ (s : GovState) (caller : Addr) (ptype : Nat) (title : String)
        (ndays now id : Nat) (s2 : GovState),
        createProposal s caller ptype title ndays now = .ok (id, s2) →
        (propAt s2 id).threshold =
          if ptype = 2 then 75 else if ptype = 1 then 60 else 50) ∧
    (∀ (s : GovState) (op : Op) (id : Nat), 0 < id →
        id ≤ s.proposals.length →
        (propAt (execOp s op) id).threshold = (propAt s id).threshold) := by
  constructor
  · intro s caller ptype title ndays now id s2 h
    obtain ⟨hid, hps, -⟩ := createProposal_ok h
    subst hid
    unfold propAt
    rw [hps]
    simp only [Nat.add_sub_cancel]
    rw [getD_append_len]
    rfl
  · exact threshold_preserved

/-- `demoState` after board member 1 creates a type-2 (merger) proposal. -/
def demoAfterCreate : GovState :=
  execOp demoState (Op.createProposal 1 2 "Merger" 7 100)

/-- C1 witness: the merger proposal created on `demoState` gets id 2 and
threshold 75, and a vote call leaves proposal 1's threshold at 60. -/
theorem C1_threshold_determined_by_type_witness :
    ((propAt demoAfterCreate 2).threshold =
      if 2 = 2 then 75 else if (2 : Nat) = 1 then 60 else 50) ∧
    (propAt (execOp demoState (Op.vote 10 1 1 500)) 1).threshold =
      (propAt demoState 1).threshold :=
  ⟨C1_threshold_determined_by_type.1 demoState 1 2 "Merger" 7 100 2
      demoAfterCreate rfl,
   C1_threshold_determined_by_type.2 demoState (Op.vote 10 1 1 500) 1
      (by decide) (by decide)⟩

/-- C7: `createProposal` assigns the sequential 1-indexed id
`length + 1`, appends the new proposal (so it sits at list index
`id - 1`), and stamps `deadline = now + days · 86400`; only
`createProposal` grows the proposal list, and it grows it by exactly one
from an initially empty list. -/
theorem C7_sequential_ids_append_only :
    (∀ (s : GovState) (caller : Addr) (ptype : Nat) (title : String)
        (ndays now id : Nat) (s2 : GovState),
        createProposal s caller ptype title ndays now = .ok (id, s2) →
        id = s.proposals.length + 1 ∧
        s2.proposals =
          s.proposals ++ [mkProposal caller ptype title ndays now] ∧
        propAt s2 id = mkProposal caller ptype title ndays now ∧
        (propAt s2 id).deadline = now + ndays * 86400) ∧
    (∀ (s : GovState) (op : Op),
        (execOp s op).proposals.length = s.proposals.length ∨
        ((∃ caller ptype title ndays now,
            op = Op.createProposal caller ptype title ndays now) ∧
         (execOp s op).proposals.length = s.proposals.length + 1)) ∧
    (∀ owner, (GovState.init owner).proposals = []) := by
  refine ⟨?_, ?_, fun _ => rfl⟩
  · intro s caller ptype title ndays now id s2 h
    obtain ⟨hid, hps, -⟩ := createProposal_ok h
    have hAt : propAt s2 id = mkProposal caller ptype title ndays now := by
      unfold propAt
      rw [hps, hid]
      simp only [Nat.add_sub_cancel]
      exact getD_append_len _ _ _
    exact ⟨hid, hps, hAt, by rw [hAt]; rfl⟩
  · intro s op
    cases op with
    | initCompany c n sh =>
        left; simp only [execOp]; unfold initCompany
        split_ifs <;> simp [settle]
    | addBoard c a =>
        left; simp only [execOp]; unfold addBoard
        split_ifs <;> simp [settle]
    | addShareholder c a sh n =>
        left; simp only [execOp]; unfold addShareholder
        split_ifs <;> simp [settle]
    | createProposal c ty ti d t =>
        simp only [execOp]
        cases hc : createProposal s c ty ti d t with
        | error e => left; rfl
        | ok r =>
            obtain ⟨rid, rs⟩ := r
            obtain ⟨-, hps, -⟩ := createProposal_ok hc
            right
            exact ⟨⟨c, ty, ti, d, t, rfl⟩, by rw [hps]; simp⟩
    | vote c id2 ch t =>
        left
        simp only [execOp]
        cases hv : vote s c id2 ch t with
        | error e => simp [settle]
        | ok s2 => simpa [settle] using (vote_ok_frame hv).2.2.2.2.2.2
    | finalize c id2 =>
        left; simp only [execOp]; unfold finalize
        split_ifs <;> simp [settle]

/-- C7 witness: creating a proposal on `demoState` (one existing proposal)
returns id 2, appends it at index 1, and sets deadline 100 + 7·86400. -/
theorem C7_sequential_ids_append_only_witness :
    2 = demoState.proposals.length + 1 ∧
    demoAfterCreate.proposals =
      demoState.proposals ++ [mkProposal 1 2 "Merger" 7 100] ∧
    propAt demoAfterCreate 2 = mkProposal 1 2 "Merger" 7 100 ∧
    (propAt demoAfterCreate 2).deadline = 100 + 7 * 86400 :=
  C7_sequential_ids_append_only.1 demoState 1 2 "Merger" 7 100 2
    demoAfterCreate rfl

/-- C9 witness: shareholder 20 of `demoState` casts the out-of-range
choice 255 on proposal 1; the call succeeds, changes no tally, and burns
their vote. -/
theorem C9_unknown_choice_acts_as_abstain_witness :
    ((demoState.shareholders 20).active = true ∧
      (0 < 1 ∧ 1 ≤ demoState.proposals.length) ∧
      demoState.voted 1 20 = false ∧
      ((propAt demoState 1).active = true ∧
        700 ≤ (propAt demoState 1).deadline) ∧
      (255 : Nat) ≠ 1 ∧ (255 : Nat) ≠ 2) ∧
    (vote demoState 20 1 255 700 =
      .ok { demoState with voted := markVoted demoState.voted 1 20 } ∧
    propAt { demoState with voted := markVoted demoState.voted 1 20 } 1 =
      propAt demoState 1 ∧
    ({ demoState with
        voted := markVoted demoState.voted 1 20 } : GovState).voted
      1 20 = true ∧
    ∀ choice2 now2,
      vote { demoState with voted := markVoted demoState.voted 1 20 } 20 1
        choice2 now2 = .error "Already voted on this proposal") :=
  ⟨⟨by decide, by decide, by decide, by decide, by decide, by decide⟩,
   C9_unknown_choice_acts_as_abstain (by decide) (by decide) (by decide)
     (by decide) (by decide) (by decide)⟩

/-- The walkthrough trace of tutorial chapter 7: init the company,
register Alice (50000), Bob (30000) and Carol (20000), create a
type-0 proposal (threshold 50), then Alice votes For, Bob Against,
Carol Abstain, all inside the voting window. -/
def c8Trace : List Op :=
  [ Op.initCompany 1 "Acme Corporation" 1000000
  , Op.addShareholder 1 10 50000 "Alice Johnson"
  , Op.addShareholder 1 20 30000 "Bob Smith"
  , Op.addShareholder 1 30 20000 "Carol Williams"
  , Op.createProposal 1 0 "Strategic decision" 7 1000
  , Op.vote 10 1 1 2000
  , Op.vote 20 1 2 2000
  , Op.vote 30 1 0 2000 ]

/-- C8: on a threshold-50 proposal, shareholders with 50000/30000/20000
shares voting For/Against/Abstain leave tallies (50000, 30000); the
for-percentage 50000·100/80000 = 62 (integer division) meets the
threshold, so `getResults` reports the proposal as passed. -/
theorem C8_walkthrough_scenario :
    (propAt (run 1 c8Trace) 1).threshold = 50 ∧
    getResults (run 1 c8Trace) 1 = .ok (50000, 30000, true) :=
  ⟨rfl, rfl⟩

theorem markVoted_mono {v : Nat → Addr → Bool} {id : Nat} {caller : Addr}
    {i : Nat} {a : Addr} (h : v i a = true) :
    markVoted v id caller i a = true := by
  unfold markVoted; split_ifs <;> simp_all

theorem logShareSum_append (log : List LogEntry) (e : LogEntry)
    (id : Nat) :
    logShareSum (log ++ [e]) id =
      logShareSum log id + (if e.1 = id then e.2.2 else 0) := by
  by_cases h : e.1 = id <;>
    simp [logShareSum, List.filter_append, h]

/-- The coupling invariant between a ledger state and the ghost vote log:
every log entry points at an existing proposal and a recorded voter, the
tallies are bounded by the logged share weights, and no (proposal, voter)
pair occurs twice. -/
def GoodLog (s : GovState) (log : List LogEntry) : Prop :=
  (∀ e ∈ log, 1 ≤ e.1 ∧ e.1 ≤ s.proposals.length ∧
      s.voted e.1 e.2.1 = true) ∧
  (∀ id, 1 ≤ id → tallySum s id ≤ logShareSum log id) ∧
  log.Pairwise (fun e1 e2 => e1.1 = e2.1 → e1.2.1 ≠ e2.2.1)

/-- The proposal list never shrinks. -/
theorem execOp_length_mono (s : GovState) (op : Op) :
    s.proposals.length ≤ (execOp s op).proposals.length := by
  cases op with
  | initCompany c n sh =>
      simp only [execOp]; unfold initCompany
      split_ifs <;> simp [settle]
  | addBoard c a =>
      simp only [execOp]; unfold addBoard
      split_ifs <;> simp [settle]
  | addShareholder c a sh n =>
      simp only [execOp]; unfold addShareholder
      split_ifs <;> simp [settle]
  | createProposal c ty ti d t =>
      simp only [execOp]
      cases hc : createProposal s c ty ti d t with
      | error e => exact le_refl _
      | ok r =>
          obtain ⟨rid, rs⟩ := r
          obtain ⟨-, hps, -⟩ := createProposal_ok hc
          rw [hps]; simp
  | vote c id2 ch t =>
      simp only [execOp]
      cases hv : vote s c id2 ch t with
      | error e => simp [settle]
      | ok s2 => simp [settle, (vote_ok_frame hv).2.2.2.2.2.2]
  | finalize c id2 =>
      simp only [execOp]; unfold finalize
      split_ifs <;> simp [settle]

/-- A recorded `voted` mark is never cleared by any ledger call. -/
theorem execOp_voted_mono (s : GovState) (op : Op) {i : Nat} {a : Addr}
    (h : s.voted i a = true) : (execOp s op).voted i a = true := by
  cases op with
  | initCompany c n sh =>
      simp only [execOp]; unfold initCompany
      split_ifs <;> simpa [settle]
  | addBoard c a2 =>
      simp only [execOp]; unfold addBoard
      split_ifs <;> simpa [settle]
  | addShareholder c a2 sh n =>
      simp only [execOp]; unfold addShareholder
      split_ifs <;> simpa [settle]
  | createProposal c ty ti d t =>
      simp only [execOp]
      cases hc : createProposal s c ty ti d t with
      | error e => exact h
      | ok r =>
          obtain ⟨rid, rs⟩ := r
          obtain ⟨-, -, -, -, -, -, -, -, hvt⟩ := createProposal_ok hc
          rw [hvt]; exact h
  | vote c id2 ch t =>
      simp only [execOp]
      cases hv : vote s c id2 ch t with
      | error e => simpa [settle]
      | ok s2 =>
          simp only [settle]
          rw [vote_ok_voted hv]
          exact markVoted_mono h
  | finalize c id2 =>
      simp only [execOp]; unfold finalize
      split_ifs <;> simpa [settle]

/-- Every call other than `vote` leaves every tally pair unchanged (or
introduces a fresh zero pair, in the case of `createProposal`). -/
theorem tallySum_execOp_nonvote (s : GovState) (op : Op)
    (hnv : ∀ c id2 ch t, op ≠ Op.vote c id2 ch t) (id : Nat)
    (hid : 1 ≤ id) :
    tallySum (execOp s op) id ≤ tallySum s id ∨
      tallySum (execOp s op) id = 0 := by
  cases op with
  | initCompany c n sh =>
      left; simp only [execOp]; unfold initCompany
      split_ifs <;> simp [settle, tallySum, propAt]
  | addBoard c a =>
      left; simp only [execOp]; unfold addBoard
      split_ifs <;> simp [settle, tallySum, propAt]
  | addShareholder c a sh n =>
      left; simp only [execOp]; unfold addShareholder
      split_ifs <;> simp [settle, tallySum, propAt]
  | createProposal c ty ti d t =>
      simp only [execOp]
      cases hc : createProposal s c ty ti d t with
      | error e => left; exact le_refl _
      | ok r =>
          obtain ⟨rid, rs⟩ := r
          obtain ⟨-, hps, -⟩ := createProposal_ok hc
          by_cases hlt : id - 1 < s.proposals.length
          · left
            unfold tallySum propAt
            rw [hps, getD_append_left _ _ _ _ hlt]
          · by_cases heq : id - 1 = s.proposals.length
            · right
              unfold tallySum propAt
              rw [hps, heq, getD_append_len]
              rfl
            · right
              unfold tallySum propAt
              rw [hps, getD_of_length_le _ _ _ (by simp; omega)]
              rfl
  | vote c id2 ch t => exact absurd rfl (hnv c id2 ch t)
  | finalize c id2 =>
      left
      simp only [execOp]; unfold finalize
      split_ifs with hI
      · simp only [settle]
        unfold tallySum propAt
        by_cases hEq : id - 1 = id2 - 1
        · rw [hEq, getD_set_self _ _ _ _ (by omega)]
          simp [deactivate, propAt, hEq]
        · rw [getD_set_ne _ _ _ _ _ (Ne.symm hEq)]
      · exact le_refl _

/-- One step of the logged execution preserves the coupling invariant. -/
theorem execLog_good {s : GovState} {log : List LogEntry} (op : Op)
    (hg : GoodLog s log) :
    GoodLog (execLog (s, log) op).1 (execLog (s, log) op).2 := by
  obtain ⟨hEnt, hBound, hPw⟩ := hg
  cases op with
  | vote c id2 ch t =>
      simp only [execLog]
      cases hv : vote s c id2 ch t with
      | error e => exact ⟨hEnt, hBound, hPw⟩
      | ok s2 =>
          simp only []
          have pre := vote_ok_pre hv
          have hlen := (vote_ok_frame hv).2.2.2.2.2.2
          have hvt := vote_ok_voted hv
          refine ⟨?_, ?_, ?_⟩
          · intro e he
            rcases List.mem_append.mp he with hin | hin
            · obtain ⟨h1, h2, h3⟩ := hEnt e hin
              exact ⟨h1, by omega, by rw [hvt]; exact markVoted_mono h3⟩
            · have : e = (id2, c, (s.shareholders c).shares) := by
                simpa using hin
              subst this
              refine ⟨pre.2.1, by omega, ?_⟩
              rw [hvt]; simp [markVoted]
          · intro id hid
            rw [logShareSum_append]
            rcases vote_ok_proposals hv with
              ⟨-, hps⟩ | ⟨-, hps⟩ | ⟨-, -, hps⟩
            · by_cases hEq : id = id2
              · subst hEq
                have hAt : propAt s2 id = addFor (propAt s id)
                    (s.shareholders c).shares := by
                  unfold propAt
                  rw [hps]
                  exact getD_set_self _ _ _ _ (by omega)
                unfold tallySum
                rw [hAt]
                simp only [addFor]
                have := hBound id hid
                unfold tallySum at this
                split_ifs <;> omega
              · have hAt : propAt s2 id = propAt s id := by
                  unfold propAt
                  rw [hps]
                  exact getD_set_ne _ _ _ _ _ (by omega)
                unfold tallySum
                rw [hAt]
                have := hBound id hid
                unfold tallySum at this
                split_ifs <;> omega
            · by_cases hEq : id = id2
              · subst hEq
                have hAt : propAt s2 id = addAgainst (propAt s id)
                    (s.shareholders c).shares := by
                  unfold propAt
                  rw [hps]
                  exact getD_set_self _ _ _ _ (by omega)
                unfold tallySum
                rw [hAt]
                simp only [addAgainst]
                have := hBound id hid
                unfold tallySum at this
                split_ifs <;> omega
              · have hAt : propAt s2 id = propAt s id := by
                  unfold propAt
                  rw [hps]
                  exact getD_set_ne _ _ _ _ _ (by omega)
                unfold tallySum
                rw [hAt]
                have := hBound id hid
                unfold tallySum at this
                split_ifs <;> omega
            · have hAt : propAt s2 id = propAt s id := by
                unfold propAt; rw [hps]
              unfold tallySum
              rw [hAt]
              have := hBound id hid
              unfold tallySum at this
              split_ifs <;> omega
          · rw [List.pairwise_append]
            refine ⟨hPw, List.pairwise_singleton _ _, ?_⟩
            intro e hin e2 hin2
            have he2 : e2 = (id2, c, (s.shareholders c).shares) := by
              simpa using hin2
            subst he2
            intro hfst
            obtain ⟨-, -, h3⟩ := hEnt e hin
            intro hsnd
            rw [hfst, hsnd] at h3
            rw [pre.2.2.2.1] at h3
            exact Bool.false_ne_true h3
  | initCompany c n sh =>
      simp only [execLog]
      refine ⟨?_, ?_, hPw⟩
      · intro e he
        obtain ⟨h1, h2, h3⟩ := hEnt e he
        exact ⟨h1,
          le_trans h2 (execOp_length_mono s (Op.initCompany c n sh)),
          execOp_voted_mono s (Op.initCompany c n sh) h3⟩
      · intro id hid
        rcases tallySum_execOp_nonvote s (Op.initCompany c n sh)
          (by intro _ _ _ _ h; cases h) id hid with hle | hz
        · exact le_trans hle (hBound id hid)
        · rw [hz]; exact Nat.zero_le _
  | addBoard c a =>
      simp only [execLog]
      refine ⟨?_, ?_, hPw⟩
      · intro e he
        obtain ⟨h1, h2, h3⟩ := hEnt e he
        exact ⟨h1, le_trans h2 (execOp_length_mono s (Op.addBoard c a)),
          execOp_voted_mono s (Op.addBoard c a) h3⟩
      · intro id hid
        rcases tallySum_execOp_nonvote s (Op.addBoard c a)
          (by intro _ _ _ _ h; cases h) id hid with hle | hz
        · exact le_trans hle (hBound id hid)
        · rw [hz]; exact Nat.zero_le _
  | addShareholder c a sh n =>
      simp only [execLog]
      refine ⟨?_, ?_, hPw⟩
      · intro e he
        obtain ⟨h1, h2, h3⟩ := hEnt e he
        exact ⟨h1,
          le_trans h2 (execOp_length_mono s (Op.addShareholder c a sh n)),
          execOp_voted_mono s (Op.addShareholder c a sh n) h3⟩
      · intro id hid
        rcases tallySum_execOp_nonvote s (Op.addShareholder c a sh n)
          (by intro _ _ _ _ h; cases h) id hid with hle | hz
        · exact le_trans hle (hBound id hid)
        · rw [hz]; exact Nat.zero_le _
  | createProposal c ty ti d t =>
      simp only [execLog]
      refine ⟨?_, ?_, hPw⟩
      · intro e he
        obtain ⟨h1, h2, h3⟩ := hEnt e he
        exact ⟨h1,
          le_trans h2
            (execOp_length_mono s (Op.createProposal c ty ti d t)),
          execOp_voted_mono s (Op.createProposal c ty ti d t) h3⟩
      · intro id hid
        rcases tallySum_execOp_nonvote s (Op.createProposal c ty ti d t)
          (by intro _ _ _ _ h; cases h) id hid with hle | hz
        · exact le_trans hle (hBound id hid)
        · rw [hz]; exact Nat.zero_le _
  | finalize c id2 =>
      simp only [execLog]
      refine ⟨?_, ?_, hPw⟩
      · intro e he
        obtain ⟨h1, h2, h3⟩ := hEnt e he
        exact ⟨h1, le_trans h2 (execOp_length_mono s (Op.finalize c id2)),
          execOp_voted_mono s (Op.finalize c id2) h3⟩
      · intro id hid
        rcases tallySum_execOp_nonvote s (Op.finalize c id2)
          (by intro _ _ _ _ h; cases h) id hid with hle | hz
        · exact le_trans hle (hBound id hid)
        · rw [hz]; exact Nat.zero_le _

/-- The fresh contract satisfies the coupling invariant. -/
theorem goodLog_init (owner : Addr) : GoodLog (GovState.init owner) [] := by
  refine ⟨by simp, ?_, List.Pairwise.nil⟩
  intro id hid
  simp [tallySum, propAt, GovState.init, logShareSum, emptyProposal]

theorem foldl_execLog_good (ops : List Op) :
    ∀ sl : GovState × List LogEntry, GoodLog sl.1 sl.2 →
      GoodLog (ops.foldl execLog sl).1 (ops.foldl execLog sl).2 := by
  induction ops with
  | nil => intro sl h; exact h
  | cons op ops ih =>
      intro sl h
      exact ih _ (execLog_good op h)

/-- Every reachable state satisfies the coupling invariant with its ghost
vote log. -/
theorem runLog_good (owner : Addr) (ops : List Op) :
    GoodLog (runLog owner ops).1 (runLog owner ops).2 :=
  foldl_execLog_good ops _ (goodLog_init owner)

/-- C6: in every reachable state, `forVotes + againstVotes` of a proposal
is at most the sum of the share counts (as recorded at voting time in the
ghost log) of the addresses that voted on it; those addresses are pairwise
distinct and each is marked as having voted; and an abstain vote (choice
0) changes no tally pair at all. -/
theorem C6_tallies_bounded_by_voter_shares (owner : Addr) (ops : List Op)
    (id : Nat) (h : 1 ≤ id) :
    tallySum (run owner ops) id ≤ logShareSum (runLog owner ops).2 id ∧
    ((runLog owner ops).2.filter (fun e => e.1 == id)).Pairwise
      (fun e1 e2 => e1.2.1 ≠ e2.2.1) ∧
    (∀ e ∈ (runLog owner ops).2.filter (fun e => e.1 == id),
      (run owner ops).voted id e.2.1 = true) ∧
    (∀ (s : GovState) (caller : Addr) (pid now : Nat) (s2 : GovState),
      vote s caller pid 0 now = .ok s2 →
      ∀ j, tallySum s2 j = tallySum s j) := by
  obtain ⟨hEnt, hBound, hPw⟩ := runLog_good owner ops
  refine ⟨hBound id h, ?_, ?_, ?_⟩
  · have hsub : ((runLog owner ops).2.filter
        (fun e => e.1 == id)).Pairwise
        (fun e1 e2 => e1.1 = e2.1 → e1.2.1 ≠ e2.2.1) :=
      List.Pairwise.sublist (List.filter_sublist _) hPw
    refine List.Pairwise.imp_of_mem ?_ hsub
    intro e1 e2 h1 h2 hr
    have he1 : e1.1 = id := by simpa using (List.mem_filter.mp h1).2
    have he2 : e2.1 = id := by simpa using (List.mem_filter.mp h2).2
    exact hr (he1.trans he2.symm)
  · intro e he
    obtain ⟨hin, hpred⟩ := List.mem_filter.mp he
    have heid : e.1 = id := by simpa using hpred
    have := (hEnt e hin).2.2
    rw [heid] at this
    exact this
  · intro s caller pid now s2 hv j
    rcases vote_ok_proposals hv with ⟨hc, -⟩ | ⟨hc, -⟩ | ⟨-, -, hps⟩
    · cases hc
    · cases hc
    · unfold tallySum propAt
      rw [hps]

/-- C6 witness: on the chapter-7 walkthrough trace the tallies of proposal
1 (50000 + 30000) are bounded by the logged voter shares
(50000 + 30000 + 20000). -/
theorem C6_tallies_bounded_by_voter_shares_witness :
    tallySum (run 1 c8Trace) 1 ≤ logShareSum (runLog 1 c8Trace).2 1 :=
  (C6_tallies_bounded_by_voter_shares 1 c8Trace 1 (le_refl 1)).1

/-- C10: the mock front-end `handleVote` never mutates the ledger — for
every wallet/contract state and every proposal id and choice it emits only
toasts and a simulated delay, never a `contract.vote` call, so replaying
its effects against any ledger state is the identity. -/
theorem C10_mock_handleVote_never_mutates :
    ∀ (walletConnected contractLoaded : Bool) (proposalId voteChoice : Nat)
      (s : GovState) (caller : Addr) (now : Nat),
      applyUiEffects caller now s
        (handleVote walletConnected contractLoaded proposalId voteChoice)
        = s ∧
      ∀ i c, UiEffect.contractVoteCall i c ∉
        handleVote walletConnected contractLoaded proposalId voteChoice := by
  intro w l pid vc s caller now
  unfold handleVote
  split_ifs <;>
    exact ⟨rfl, by intro i c; simp [applyUiEffects, applyUiEffect]⟩

end Gov
